import Mathlib

/-
Verification development for the in-browser editor/bundler pipeline of the
repository: virtual file store, extractor (parseProjectCode), bundler
(bundlePreview), AI edit cycle (handleSendMessage + streamCodeEdit), and the
file operations (handleCreateFile, handleDeleteFile, handleFileChange) from
src/components/InputSection.tsx and src/unnamed/part_001.

All JavaScript string operations used by the source are modelled explicitly
over lists of characters:
  * String.prototype.match with the two concrete regexes
    /<style[^>]*>([\s\S]*?)<\/style>/i  and
    /<script(?![^>]*src)[^>]*>([\s\S]*?)<\/script>/i
    (leftmost match, greedy [^>]* up to the first unquoted GT, lazy inner
    group up to the first closing tag, case-insensitive ASCII, negative
    lookahead over the GT-free prefix);
  * String.prototype.replace with a string pattern (first occurrence only)
    including the GetSubstitution dollar escapes in the replacement
    (doubled dollar, dollar-ampersand for the match, dollar-backquote for the
    text before the match, dollar-quote for the text after the match);
  * String.prototype.replace with /```html/g and /```/g and empty replacement
    (global, non-overlapping, left to right);
  * String.prototype.trim, includes, endsWith, join.
-/

/-- Case-sensitive character equality used by literal JS string search. -/
def charEq (a b : Char) : Bool := a == b

/-- ASCII case-insensitive character equality, modelling the regex i-flag
(in non-unicode mode only ASCII letters case-fold). -/
def charEqCI (a b : Char) : Bool := a.toLower == b.toLower

/-- Does the list start with the given pattern, comparing characters with eq? -/
def startsWithBy (eq : Char → Char → Bool) : List Char → List Char → Bool
  | [], _ => true
  | _ :: _, [] => false
  | p :: ps, c :: cs => eq p c && startsWithBy eq ps cs

/-- Split a list at the first occurrence of the pattern (character comparison
given by eq): returns the part before the occurrence and the part after it.
none when the pattern does not occur. -/
def splitFirstBy (eq : Char → Char → Bool) (pat : List Char) : List Char → Option (List Char × List Char)
  | [] => if startsWithBy eq pat [] then some ([], []) else none
  | c :: rest =>
    if startsWithBy eq pat (c :: rest) then
      some ([], List.drop pat.length (c :: rest))
    else
      match splitFirstBy eq pat rest with
      | some (b, a) => some (c :: b, a)
      | none => none

/-- JS String.prototype.includes. -/
def containsL (s pat : List Char) : Bool := (splitFirstBy charEq pat s).isSome

/-- Case-insensitive substring test (for the regex negative lookahead). -/
def containsCIL (s pat : List Char) : Bool := (splitFirstBy charEqCI pat s).isSome

/-- First position (scanning left to right) where the partial matcher f
succeeds; models the regex engine advancing one character after a failed
match attempt. -/
def firstSome (f : List Char → Option (List Char)) : List Char → Option (List Char)
  | [] => f []
  | c :: rest =>
    match f (c :: rest) with
    | some r => some r
    | none => firstSome f rest

/-- Whitespace stripped by JS String.prototype.trim (ASCII part; the unicode
space characters do not occur in any statement below). -/
def isJsSpace (c : Char) : Bool :=
  c == ' ' || c == '\t' || c == '\n' || c == '\r' || c == '\x0b' || c == '\x0c'

/-- JS String.prototype.trim over a character list. -/
def trimL (s : List Char) : List Char :=
  ((s.dropWhile isJsSpace).reverse.dropWhile isJsSpace).reverse

/-- JS String.prototype.trim. -/
def trimS (s : String) : String := ⟨trimL s.data⟩

/-- Scanner state for global removal: while skip is positive we are inside an
already matched occurrence and just drop characters. -/
def removeAllAux (pat : List Char) : Nat → List Char → List Char
  | _, [] => []
  | Nat.succ k, _ :: rest => removeAllAux pat k rest
  | 0, c :: rest =>
    if startsWithBy charEq pat (c :: rest) then
      removeAllAux pat (pat.length - 1) rest
    else
      c :: removeAllAux pat 0 rest

/-- JS s.replace(/pat/g, '') for a literal pattern: remove every
non-overlapping occurrence, scanning left to right. -/
def removeAllS (s pat : String) : String := ⟨removeAllAux pat.data 0 s.data⟩

/-- The backquote character (code 96). -/
def backquoteChar : Char := Char.ofNat 96

/-- The single quote character (code 39). -/
def squoteChar : Char := Char.ofNat 39

/-- GetSubstitution from the ECMAScript spec, for a string search value (no
capture groups): process the replacement text, expanding the dollar escapes.
matched is the pattern itself, before and after are the parts of the subject
around the first occurrence. -/
def getSubstitution (matched before after : List Char) : List Char → List Char
  | [] => []
  | c :: rest =>
    if c = '$' then
      match rest with
      | [] => [c]
      | d :: rest2 =>
        if d = '$' then '$' :: getSubstitution matched before after rest2
        else if d = '&' then matched ++ getSubstitution matched before after rest2
        else if d = backquoteChar then before ++ getSubstitution matched before after rest2
        else if d = squoteChar then after ++ getSubstitution matched before after rest2
        else c :: getSubstitution matched before after (d :: rest2)
    else c :: getSubstitution matched before after rest

/-- JS s.replace(pat, repl) with string arguments: replace the first
occurrence of pat, applying GetSubstitution to repl. -/
def replaceFirstJS (s pat repl : String) : String :=
  match splitFirstBy charEq pat.data s.data with
  | none => s
  | some (b, a) => ⟨b ++ getSubstitution pat.data b a repl.data ++ a⟩

/-- JS String.prototype.includes on strings. -/
def containsStr (s pat : String) : Bool := containsL s.data pat.data

/-- JS String.prototype.endsWith. -/
def strEndsWith (s pat : String) : Bool :=
  startsWithBy charEq pat.data.reverse s.data.reverse

/-- Split a string at the first occurrence of pat (case-sensitive). -/
def splitFirstS (s pat : String) : Option (String × String) :=
  (splitFirstBy charEq pat.data s.data).map (fun p => (⟨p.1⟩, ⟨p.2⟩))

/-- No character of the string is a dollar sign, so GetSubstitution leaves a
replacement containing it unchanged. -/
def noDollar (s : String) : Bool := s.data.all (fun c => c != '$')

/-- Attempt the style regex /<style[^>]*>([\s\S]*?)<\/style>/i at the head of
the list: literal case-insensitive open tag name, greedy run of non-GT
characters closed by the first GT, then the lazy inner group up to the first
case-insensitive closing tag. Returns the inner group. -/
def tryStyleAt (s : List Char) : Option (List Char) :=
  if startsWithBy charEqCI ("<style".data) s then
    match splitFirstBy charEq ['>'] (s.drop 6) with
    | none => none
    | some (_, afterGt) =>
      match splitFirstBy charEqCI ("</style>".data) afterGt with
      | none => none
      | some (inner, _) => some inner
  else none

/-- Attempt the script regex /<script(?![^>]*src)[^>]*>([\s\S]*?)<\/script>/i
at the head of the list. The negative lookahead fails the attempt when src
occurs (case-insensitively) in the GT-free run following the tag name. -/
def tryScriptAt (s : List Char) : Option (List Char) :=
  if startsWithBy charEqCI ("<script".data) s then
    let rest := s.drop 7
    if containsCIL (rest.takeWhile (fun c => c != '>')) ("src".data) then none
    else
      match splitFirstBy charEq ['>'] rest with
      | none => none
      | some (_, afterGt) =>
        match splitFirstBy charEqCI ("</script>".data) afterGt with
        | none => none
        | some (inner, _) => some inner
  else none

/-- Inner text of the first style block of the document, per
fullHtml.match(/<style[^>]*>([\s\S]*?)<\/style>/i) in parseProjectCode. -/
def styleInner (s : String) : Option String :=
  (firstSome tryStyleAt s.data).map (fun l => ⟨l⟩)

/-- Inner text of the first script block without an src attribute, per
fullHtml.match(/<script(?![^>]*src)[^>]*>([\s\S]*?)<\/script>/i). -/
def scriptInner (s : String) : Option String :=
  (firstSome tryScriptAt s.data).map (fun l => ⟨l⟩)

/-- The language field of a VirtualFile in src/components/InputSection.tsx. -/
inductive Lang where
  | html
  | css
  | javascript
deriving DecidableEq, Repr

/-- VirtualFile from src/components/InputSection.tsx. -/
structure VirtualFile where
  id : String
  name : String
  language : Lang
  content : String
deriving DecidableEq, Repr

/-- Role of a chat message (src/unnamed/part_000, ChatMessage). -/
inductive ChatRole where
  | user
  | model
deriving DecidableEq, Repr

/-- ChatMessage from src/unnamed/part_000. -/
structure ChatMessage where
  role : ChatRole
  text : String
deriving DecidableEq, Repr

/-- The mutable editor state owned by the Editor component: the files array
and the activeFileId pointer. -/
structure EditorState where
  files : List VirtualFile
  activeFileId : String
deriving DecidableEq, Repr

/-- parseProjectCode from src/components/InputSection.tsx: always push the
full document as index.html; additionally push styles.css with the trimmed
inner text of the first style block when nonempty, and script.js with the
trimmed inner text of the first src-less script block when nonempty. -/
def parseProjectCode (fullHtml : String) : List VirtualFile :=
  let cssContent : String :=
    match styleInner fullHtml with
    | some g => trimS g
    | none => ""
  let jsContent : String :=
    match scriptInner fullHtml with
    | some g => trimS g
    | none => ""
  [⟨"1", "index.html", Lang.html, fullHtml⟩]
    ++ (if cssContent.length > 0 then [⟨"2", "styles.css", Lang.css, cssContent⟩] else [])
    ++ (if jsContent.length > 0 then [⟨"3", "script.js", Lang.javascript, jsContent⟩] else [])

/-- bundlePreview from src/components/InputSection.tsx: start from the content
of the file named index.html (empty string when absent), inject the
newline-joined css contents before the first closing head tag (append when
absent), then inject the newline-joined javascript contents before the first
closing body tag (append when absent). The two replace calls are JS
String.prototype.replace with string arguments, hence first occurrence only
and GetSubstitution on the replacement. -/
def bundlePreview (files : List VirtualFile) : String :=
  let indexHtml : String :=
    ((files.find? (fun f => f.name == "index.html")).map VirtualFile.content).getD ""
  let styles : String :=
    String.intercalate "\n" ((files.filter (fun f => f.language == Lang.css)).map VirtualFile.content)
  let scripts : String :=
    String.intercalate "\n" ((files.filter (fun f => f.language == Lang.javascript)).map VirtualFile.content)
  let b1 : String :=
    if trimS styles ≠ "" then
      if containsStr indexHtml "</head>" then
        replaceFirstJS indexHtml "</head>" ("<style>" ++ styles ++ "</style></head>")
      else
        indexHtml ++ "<style>" ++ styles ++ "</style>"
    else indexHtml
  let b2 : String :=
    if trimS scripts ≠ "" then
      if containsStr b1 "</body>" then
        replaceFirstJS b1 "</body>" ("<script>" ++ scripts ++ "</script></body>")
      else
        b1 ++ "<script>" ++ scripts ++ "</script>"
    else b1
  b2

/-- The newline-joined css payload of a store, exactly the styles value
computed inside bundlePreview. -/
def cssJoined (files : List VirtualFile) : String :=
  String.intercalate "\n" ((files.filter (fun f => f.language == Lang.css)).map VirtualFile.content)

/-- The newline-joined javascript payload of a store, exactly the scripts
value computed inside bundlePreview. -/
def jsJoined (files : List VirtualFile) : String :=
  String.intercalate "\n" ((files.filter (fun f => f.language == Lang.javascript)).map VirtualFile.content)

/-- The content of the file named index.html, the base document of
bundlePreview (empty when absent). -/
def rootContent (files : List VirtualFile) : String :=
  ((files.find? (fun f => f.name == "index.html")).map VirtualFile.content).getD ""

/-- The style-injection stage of bundlePreview: when the payload is nonempty
after trimming, inject it as one style block before the first closing head
tag of the document when present, else append it; otherwise return the
document unchanged. bundlePreview is definitionally this stage applied to the
root content with the joined css payload, followed by the script stage. -/
def injectStyle (doc payload : String) : String :=
  if trimS payload ≠ "" then
    if containsStr doc "</head>" then
      replaceFirstJS doc "</head>" ("<style>" ++ payload ++ "</style></head>")
    else doc ++ "<style>" ++ payload ++ "</style>"
  else doc

/-- The script-injection stage of bundlePreview: when the payload is nonempty
after trimming, inject it as one script block before the first closing body
tag of the document when present, else append it; otherwise return the
document unchanged. -/
def injectScript (doc payload : String) : String :=
  if trimS payload ≠ "" then
    if containsStr doc "</body>" then
      replaceFirstJS doc "</body>" ("<script>" ++ payload ++ "</script></body>")
    else doc ++ "<script>" ++ payload ++ "</script>"
  else doc

/-- Outcome of one backend call inside streamCodeEdit
(src/unnamed/part_001): either the stream completes with a list of text
chunks, or it raises after yielding a prefix of chunks. -/
inductive BackendOutcome where
  | ok (chunks : List String)
  | err (preChunks : List String)
deriving DecidableEq, Repr

/-- streamCodeEdit from src/unnamed/part_001: forwards the chunk texts; the
catch block yields the original currentCode when the backend raises (after
whatever chunks were already yielded). -/
def streamCodeEdit (currentCode : String) (outcome : BackendOutcome) : List String :=
  match outcome with
  | BackendOutcome.ok chunks => chunks
  | BackendOutcome.err pre => pre ++ [currentCode]

/-- The response post-processing in handleSendMessage:
updatedCode.replace(/```html/g, '').replace(/```/g, '').trim(). -/
def processResponse (raw : String) : String :=
  trimS (removeAllS (removeAllS raw "```html") "```")

/-- The interim progress message appended by handleSendMessage. -/
def analyzingText : String := "Analyzing project structure and applying changes..."

/-- The success message appended by handleSendMessage. -/
def successText : String := "Code updated successfully."

/-- The failure message appended by handleSendMessage. -/
def errorText : String := "Error applying changes."

/-- handleSendMessage from src/components/InputSection.tsx, as a function of
the store, the chat history, the chat input and the backend outcome. Returns
the files and chat history after the cycle. Empty (trimmed) input is a no-op
(the isEditing busy gate concerns overlapping cycles and is outside this
single-cycle model). On success the interim progress message is replaced by
the success message; on failure it stays and the failure message is appended. -/
def handleSendMessage (files : List VirtualFile) (chatHistory : List ChatMessage)
    (chatInput : String) (outcome : BackendOutcome) :
    List VirtualFile × List ChatMessage :=
  if trimS chatInput == "" then (files, chatHistory)
  else
    let newHistoryUser := chatHistory ++ [⟨ChatRole.user, chatInput⟩]
    let currentBundled := bundlePreview files
    let updatedCode := processResponse (String.join (streamCodeEdit currentBundled outcome))
    if updatedCode ≠ "" ∧ 50 < updatedCode.length then
      let newFiles := parseProjectCode updatedCode
      match newFiles.find? (fun f => f.name == "index.html") with
      | some newIndex =>
        (files.map (fun f =>
           if f.name == "index.html" then { f with content := newIndex.content } else f),
         newHistoryUser ++ [⟨ChatRole.model, successText⟩])
      | none =>
        (files, newHistoryUser ++ [⟨ChatRole.model, successText⟩])
    else
      (files, newHistoryUser ++ [⟨ChatRole.model, analyzingText⟩, ⟨ChatRole.model, errorText⟩])

/-- handleCreateFile from src/components/InputSection.tsx: a cancelled or
empty name is a no-op; the language comes from the file extension; the new
file is appended and becomes active. newId models Date.now().toString(). -/
def handleCreateFile (st : EditorState) (name : String) (newId : String) : EditorState :=
  if name == "" then st
  else
    let lang1 := if strEndsWith name ".css" then Lang.css else Lang.html
    let lang := if strEndsWith name ".js" then Lang.javascript else lang1
    let content := if lang == Lang.html then "<!-- New Page -->" else "/* New Style */"
    { files := st.files ++ [⟨newId, name, lang, content⟩], activeFileId := newId }

/-- handleDeleteFile from src/components/InputSection.tsx: refuse (alert) when
at most one file is in the store; otherwise, when the user confirms, filter
out the files with the given id and, if the active file was deleted, point at
the first surviving file of the old array (empty string when none). The Bool
in the result records whether the refusal alert fired. -/
def handleDeleteFile (st : EditorState) (id : String) (confirmed : Bool) :
    EditorState × Bool :=
  if st.files.length ≤ 1 then (st, true)
  else if confirmed then
    let newFiles := st.files.filter (fun f => f.id != id)
    let newActive :=
      if st.activeFileId == id then
        ((st.files.find? (fun f => f.id != id)).map VirtualFile.id).getD ""
      else st.activeFileId
    ({ files := newFiles, activeFileId := newActive }, false)
  else (st, false)

/-- handleFileChange from src/components/InputSection.tsx: replace the content
of the active file. -/
def handleFileChange (st : EditorState) (newContent : String) : EditorState :=
  { st with
    files := st.files.map (fun f =>
      if f.id == st.activeFileId then { f with content := newContent } else f) }


/-! ### Basic lemmas about the string scanners -/

/-- startsWithBy with literal equality means the pattern is a prefix. -/
theorem startsWithBy_charEq_iff (pat : List Char) : ∀ s : List Char,
    startsWithBy charEq pat s = true ↔ ∃ t, s = pat ++ t := by
  induction pat with
  | nil => intro s; simp [startsWithBy]
  | cons p ps ih =>
    intro s
    cases s with
    | nil => simp [startsWithBy]
    | cons c cs =>
      simp only [startsWithBy, Bool.and_eq_true, charEq, beq_iff_eq, ih,
        List.cons_append, List.cons.injEq]
      constructor
      · rintro ⟨rfl, t, rfl⟩; exact ⟨t, rfl, rfl⟩
      · rintro ⟨t, rfl, rfl⟩; exact ⟨rfl, t, rfl⟩

/-- Soundness of splitFirstBy: the result is a decomposition of the input. -/
theorem splitFirstBy_charEq_sound (pat : List Char) : ∀ s b a : List Char,
    splitFirstBy charEq pat s = some (b, a) → s = b ++ pat ++ a := by
  intro s
  induction s with
  | nil =>
    intro b a h
    simp only [splitFirstBy] at h
    split at h
    · next hs =>
      obtain ⟨t, ht⟩ := (startsWithBy_charEq_iff pat []).mp hs
      simp only [Option.some.injEq, Prod.mk.injEq] at h
      obtain ⟨rfl, rfl⟩ := h
      have : pat = [] ∧ t = [] := by simpa using ht.symm
      simp [this.1]
    · exact Option.noConfusion h
  | cons c cs ih =>
    intro b a h
    simp only [splitFirstBy] at h
    split at h
    · next hs =>
      obtain ⟨t, ht⟩ := (startsWithBy_charEq_iff pat (c :: cs)).mp hs
      simp only [Option.some.injEq, Prod.mk.injEq] at h
      obtain ⟨rfl, rfl⟩ := h
      rw [ht, List.drop_left]
      simp
    · next hs =>
      cases hsplit : splitFirstBy charEq pat cs with
      | none => rw [hsplit] at h; exact Option.noConfusion h
      | some p =>
        obtain ⟨b1, a1⟩ := p
        rw [hsplit] at h
        simp only [Option.some.injEq, Prod.mk.injEq] at h
        obtain ⟨rfl, rfl⟩ := h
        have hcs := ih b1 a1 hsplit
        simp [hcs]

/-- Minimality of splitFirstBy: the returned decomposition is at the leftmost
occurrence of the pattern. -/
theorem splitFirstBy_charEq_min (pat : List Char) : ∀ s b a : List Char,
    splitFirstBy charEq pat s = some (b, a) →
    ∀ b2 a2 : List Char, s = b2 ++ pat ++ a2 → b.length ≤ b2.length := by
  intro s
  induction s with
  | nil =>
    intro b a h
    simp only [splitFirstBy] at h
    split at h
    · simp only [Option.some.injEq, Prod.mk.injEq] at h
      obtain ⟨rfl, rfl⟩ := h
      intro b2 a2 _
      simp
    · exact Option.noConfusion h
  | cons c cs ih =>
    intro b a h
    simp only [splitFirstBy] at h
    split at h
    · simp only [Option.some.injEq, Prod.mk.injEq] at h
      obtain ⟨rfl, rfl⟩ := h
      intro b2 a2 _
      simp
    · next hs =>
      cases hsplit : splitFirstBy charEq pat cs with
      | none => rw [hsplit] at h; exact Option.noConfusion h
      | some p =>
        obtain ⟨b1, a1⟩ := p
        rw [hsplit] at h
        simp only [Option.some.injEq, Prod.mk.injEq] at h
        obtain ⟨rfl, rfl⟩ := h
        intro b2 a2 hdec
        cases b2 with
        | nil =>
          exfalso
          apply hs
          apply (startsWithBy_charEq_iff pat (c :: cs)).mpr
          exact ⟨a2, by simpa using hdec⟩
        | cons d b2t =>
          have hcs : cs = b2t ++ pat ++ a2 := by
            have := hdec
            simp only [List.cons_append, List.cons.injEq] at this
            exact this.2
          have := ih b1 a1 hsplit b2t a2 hcs
          simpa using this

/-- A decomposition witnesses that splitFirstBy succeeds. -/
theorem splitFirstBy_charEq_isSome (pat : List Char) :
    ∀ b a : List Char, (splitFirstBy charEq pat (b ++ pat ++ a)).isSome = true := by
  intro b
  induction b with
  | nil =>
    intro a
    have hsw : startsWithBy charEq pat (pat ++ a) = true :=
      (startsWithBy_charEq_iff pat (pat ++ a)).mpr ⟨a, rfl⟩
    simp only [List.nil_append]
    cases hp : (pat ++ a : List Char) with
    | nil =>
      rw [hp] at hsw
      simp [splitFirstBy, hsw]
    | cons c rest =>
      rw [hp] at hsw
      simp [splitFirstBy, hsw]
  | cons d bt ih =>
    intro a
    show (splitFirstBy charEq pat (d :: (bt ++ pat ++ a))).isSome = true
    simp only [splitFirstBy]
    split
    · simp
    · have := ih a
      cases hsplit : splitFirstBy charEq pat (bt ++ pat ++ a) with
      | none => rw [hsplit] at this; simp at this
      | some p => simp [hsplit]

/-- GetSubstitution is the identity on replacement text without dollars. -/
theorem getSubstitution_id (m b a : List Char) : ∀ repl : List Char,
    (∀ c ∈ repl, c ≠ '$') → getSubstitution m b a repl = repl := by
  intro repl
  induction repl with
  | nil => intro _; rfl
  | cons c rest ih =>
    intro h
    have hc : c ≠ '$' := h c (by simp)
    rw [getSubstitution.eq_def]
    have := ih (fun d hd => h d (by simp [hd]))
    simp [if_neg hc, this]

/-- Appending strings concatenates the underlying character lists. -/
theorem strData_append (s t : String) : (s ++ t).data = s.data ++ t.data :=
  String.data_append s t

/-- find? returns the head of the filtered list. -/
theorem find?_eq_head?_filter {α : Type} (p : α → Bool) :
    ∀ l : List α, l.find? p = (l.filter p).head? := by
  intro l
  induction l with
  | nil => rfl
  | cons x xs ih =>
    cases hx : p x with
    | true =>
      rw [List.find?_cons_of_pos xs hx, List.filter_cons_of_pos hx]
      rfl
    | false =>
      rw [List.find?_cons_of_neg xs (by simp [hx]), List.filter_cons_of_neg (by simp [hx])]
      exact ih

/-- In a store with at least two files and pairwise distinct ids, some file
survives deleting the files with a given id. -/
theorem exists_keep (files : List VirtualFile) (x : String)
    (h1 : 1 < files.length) (h2 : (files.map VirtualFile.id).Nodup) :
    ∃ f ∈ files, (f.id != x) = true := by
  match files, h1 with
  | a :: b :: rest, _ =>
    have hab : a.id ≠ b.id := by
      simp only [List.map_cons, List.nodup_cons, List.mem_cons] at h2
      intro heq
      exact h2.1 (Or.inl heq)
    by_cases ha : a.id = x
    · refine ⟨b, by simp, ?_⟩
      simp only [bne_iff_ne, ne_eq]
      intro hb
      exact hab (by rw [ha, hb])
    · exact ⟨a, by simp, by simpa using ha⟩

/-- Mapping a name-preserving function over a file list preserves the length
of any filter by name. -/
theorem filter_name_map (g : VirtualFile → VirtualFile)
    (hg : ∀ f, (g f).name = f.name) (nm : String) :
    ∀ l : List VirtualFile,
      ((l.map g).filter (fun f => f.name == nm)).length
        = (l.filter (fun f => f.name == nm)).length := by
  intro l
  induction l with
  | nil => rfl
  | cons x xs ih =>
    by_cases hx : x.name = nm
    · simp [List.filter, hg, hx, ih]
    · simp only [List.map_cons, List.filter]
      have h1 : ((g x).name == nm) = false := by
        simp [hg, hx]
      have h2 : (x.name == nm) = false := by simp [hx]
      rw [h1, h2]
      exact ih

/-! ### Lemmas about the extractor and bundler -/

/-- Trimming the empty string gives the empty string. -/
@[simp] theorem trimS_empty : trimS "" = "" := rfl

/-- Joining no strings gives the empty string. -/
@[simp] theorem intercalate_nil (s : String) : String.intercalate s [] = "" := rfl

/-- Without a style match and a script match, extraction yields only the root
file. -/
theorem parse_no_blocks (D : String)
    (hs : styleInner D = none) (hj : scriptInner D = none) :
    parseProjectCode D = [⟨"1", "index.html", Lang.html, D⟩] := by
  simp [parseProjectCode, hs, hj]

/-- Bundling a store holding only the root html file returns its content. -/
theorem bundle_single_root (D : String) :
    bundlePreview [⟨"1", "index.html", Lang.html, D⟩] = D := by
  have h1 : (Lang.html == Lang.css) = false := by decide
  have h2 : (Lang.html == Lang.javascript) = false := by decide
  simp [bundlePreview, List.find?, List.filter, h1, h2]

/-- The extractor always places the root file first, so find? by the root
name returns it. -/
theorem find?_parse (u : String) :
    (parseProjectCode u).find? (fun f => f.name == "index.html")
      = some ⟨"1", "index.html", Lang.html, u⟩ := by
  have : ((⟨"1", "index.html", Lang.html, u⟩ : VirtualFile).name == "index.html") = true := by
    simp
  simp only [parseProjectCode, List.cons_append]
  exact List.find?_cons_of_pos _ this

/-! ### Lang comparison facts -/

/-- html is not css under BEq. -/
@[simp] theorem beq_lang_html_css : (Lang.html == Lang.css) = false := by decide

/-- html is not javascript under BEq. -/
@[simp] theorem beq_lang_html_js : (Lang.html == Lang.javascript) = false := by decide

/-- css is not javascript under BEq. -/
@[simp] theorem beq_lang_css_js : (Lang.css == Lang.javascript) = false := by decide

/-- javascript is not css under BEq. -/
@[simp] theorem beq_lang_js_css : (Lang.javascript == Lang.css) = false := by decide

/-- The user role is not the model role under BEq. -/
@[simp] theorem beq_role_user_model : (ChatRole.user == ChatRole.model) = false := by decide

/-! ### Claim theorems -/

/-- Claim C8: for every store containing exactly one file, an attempted delete
of that file (any id, confirmed or not) leaves the store containing that same
file with unchanged content and active pointer, and the user-visible refusal
alert is signalled synchronously. -/
theorem c8_theorem (f : VirtualFile) (activeId id : String) (confirmed : Bool) :
    handleDeleteFile ⟨[f], activeId⟩ id confirmed = (⟨[f], activeId⟩, true) := by
  simp [handleDeleteFile]

/-- Claim C5: for every input document D, extraction produces the file named
index.html, first in the list, whose content is exactly D; and when the
style regex and the script regex find no match, extraction yields exactly
that one file. -/
theorem c5_theorem (D : String) :
    (parseProjectCode D).head? = some ⟨"1", "index.html", Lang.html, D⟩
    ∧ (styleInner D = none → scriptInner D = none →
        parseProjectCode D = [⟨"1", "index.html", Lang.html, D⟩]) := by
  constructor
  · simp [parseProjectCode]
  · intro hs hj
    exact parse_no_blocks D hs hj

/-- Witness for C5 at the block-free document "hello". -/
theorem c5_witness :
    (parseProjectCode "hello").head? = some ⟨"1", "index.html", Lang.html, "hello"⟩
    ∧ parseProjectCode "hello" = [⟨"1", "index.html", Lang.html, "hello"⟩] :=
  ⟨( c5_theorem "hello").1, ( c5_theorem "hello").2 (by decide) (by decide)⟩

/-- Claim C9: for every store whose css file list and javascript file list are
both empty, the bundle equals the content of the file named index.html, and
the empty string when no such file exists. -/
theorem c9_theorem (files : List VirtualFile)
    (hcss : files.filter (fun f => f.language == Lang.css) = [])
    (hjs : files.filter (fun f => f.language == Lang.javascript) = []) :
    bundlePreview files
      = ((files.find? (fun f => f.name == "index.html")).map VirtualFile.content).getD "" := by
  simp [bundlePreview, hcss, hjs]

/-- Witness for C9 at a one-file store. -/
theorem c9_witness :
    bundlePreview [⟨"1", "index.html", Lang.html, "abc"⟩] = "abc" := by
  have h := c9_theorem [⟨"1", "index.html", Lang.html, "abc"⟩] (by decide) (by decide)
  rw [h]
  decide

/-- Counterexample for C2: at the document consisting of one style block, one
extract-then-bundle cycle does not reach a fixed point; the bundler appends
one more copy of the extracted style block on every cycle. -/
theorem c2_counterexample :
    bundlePreview (parseProjectCode (bundlePreview (parseProjectCode "<style>a</style>")))
      ≠ bundlePreview (parseProjectCode "<style>a</style>") := by decide

/-- Claim C2 (amended): for every document D in which the style regex and the
script regex find no match, bundle and extract compose to the identity, so
the composed transformation is at a fixed point within one cycle. -/
theorem c2_theorem (D : String)
    (hs : styleInner D = none) (hj : scriptInner D = none) :
    bundlePreview (parseProjectCode (bundlePreview (parseProjectCode D)))
      = bundlePreview (parseProjectCode D) := by
  have h1 : bundlePreview (parseProjectCode D) = D := by
    rw [parse_no_blocks D hs hj, bundle_single_root]
  rw [h1]
  exact h1

/-- Witness for C2 at the block-free document "plain text". -/
theorem c2_witness :
    bundlePreview (parseProjectCode (bundlePreview (parseProjectCode "plain text")))
      = bundlePreview (parseProjectCode "plain text") :=
  c2_theorem "plain text" (by decide) (by decide)

/-- Claim C7: extraction emits at most one auxiliary style file and at most
one auxiliary script file (never more than three files in total); the css
filter of the result is exactly the optional file built from the trimmed
inner text of the first style block, and the javascript filter is exactly the
optional file built from the trimmed inner text of the first src-less script
block; later blocks never become additional files. -/
theorem c7_theorem (D : String) :
    (parseProjectCode D).length ≤ 3
    ∧ ((parseProjectCode D).filter (fun f => f.language == Lang.css)).length ≤ 1
    ∧ ((parseProjectCode D).filter (fun f => f.language == Lang.javascript)).length ≤ 1
    ∧ (parseProjectCode D).filter (fun f => f.language == Lang.css)
        = (match styleInner D with
           | some g =>
             if (trimS g).length > 0 then [⟨"2", "styles.css", Lang.css, trimS g⟩] else []
           | none => [])
    ∧ (parseProjectCode D).filter (fun f => f.language == Lang.javascript)
        = (match scriptInner D with
           | some g =>
             if (trimS g).length > 0 then [⟨"3", "script.js", Lang.javascript, trimS g⟩] else []
           | none => []) := by
  have hfc : (parseProjectCode D).filter (fun f => f.language == Lang.css)
      = (match styleInner D with
         | some g =>
           if (trimS g).length > 0 then [⟨"2", "styles.css", Lang.css, trimS g⟩] else []
         | none => []) := by
    cases hs : styleInner D <;> cases hj : scriptInner D <;>
      simp [parseProjectCode, hs, hj, List.filter_append, List.filter,
        apply_ite (List.filter (fun f : VirtualFile => f.language == Lang.css))]
  have hfj : (parseProjectCode D).filter (fun f => f.language == Lang.javascript)
      = (match scriptInner D with
         | some g =>
           if (trimS g).length > 0 then [⟨"3", "script.js", Lang.javascript, trimS g⟩] else []
         | none => []) := by
    cases hs : styleInner D <;> cases hj : scriptInner D <;>
      simp [parseProjectCode, hs, hj, List.filter_append, List.filter,
        apply_ite (List.filter (fun f : VirtualFile => f.language == Lang.javascript))]
  refine ⟨?_, ?_, ?_, hfc, hfj⟩
  · simp only [parseProjectCode]
    split_ifs <;> simp
  · rw [hfc]
    cases styleInner D with
    | none => simp
    | some g => by_cases h : 0 < (trimS g).length <;> simp [h]
  · rw [hfj]
    cases scriptInner D with
    | none => simp
    | some g => by_cases h : 0 < (trimS g).length <;> simp [h]

/-- Counterexample for C1: on a backend error, streamCodeEdit yields the
current bundled document; with an auxiliary css file in the store the bundle
is longer than 50 characters and differs from the root content, so the edit
cycle takes the success path, rewrites the root file and records no failure
message at all. -/
theorem c1_counterexample :
    (handleSendMessage
        [⟨"1", "index.html", Lang.html, "<html><head></head><body></body></html>"⟩,
         ⟨"2", "styles.css", Lang.css, "b"⟩]
        [] "make it nicer" (BackendOutcome.err [])).1
      ≠ [⟨"1", "index.html", Lang.html, "<html><head></head><body></body></html>"⟩,
         ⟨"2", "styles.css", Lang.css, "b"⟩]
    ∧ ((handleSendMessage
        [⟨"1", "index.html", Lang.html, "<html><head></head><body></body></html>"⟩,
         ⟨"2", "styles.css", Lang.css, "b"⟩]
        [] "make it nicer" (BackendOutcome.err [])).2.filter
          (fun m => m.role == ChatRole.model && m.text == errorText)).length = 0 := by
  decide

/-- Claim C1 (amended): for every store, history and nonempty edit request, if
the fence-stripped trimmed response text (which, when the backend raises an
error, ends with the current bundled document) has length at most 50, the
store is returned exactly unchanged and exactly one failure message is
appended to the chat history (after the user message and the interim progress
message). -/
theorem c1_theorem (files : List VirtualFile) (hist : List ChatMessage)
    (msg : String) (outcome : BackendOutcome)
    (hmsg : trimS msg ≠ "")
    (hshort : (processResponse (String.join (streamCodeEdit (bundlePreview files) outcome))).length ≤ 50) :
    (handleSendMessage files hist msg outcome).1 = files
    ∧ (handleSendMessage files hist msg outcome).2
        = hist ++ [⟨ChatRole.user, msg⟩, ⟨ChatRole.model, analyzingText⟩, ⟨ChatRole.model, errorText⟩]
    ∧ ((handleSendMessage files hist msg outcome).2.filter
          (fun m => m.role == ChatRole.model && m.text == errorText)).length
        = (hist.filter (fun m => m.role == ChatRole.model && m.text == errorText)).length + 1 := by
  have hg : (trimS msg == "") = false := by simp [hmsg]
  have hcond : ¬ (processResponse (String.join (streamCodeEdit (bundlePreview files) outcome)) ≠ ""
      ∧ 50 < (processResponse (String.join (streamCodeEdit (bundlePreview files) outcome))).length) := by
    rintro ⟨-, hlt⟩
    omega
  have hmain : handleSendMessage files hist msg outcome
      = (files, hist ++ [⟨ChatRole.user, msg⟩, ⟨ChatRole.model, analyzingText⟩, ⟨ChatRole.model, errorText⟩]) := by
    simp only [handleSendMessage, hg, Bool.false_eq_true, if_false, if_neg hcond]
    simp
  refine ⟨by rw [hmain], by rw [hmain], ?_⟩
  rw [hmain]
  simp +decide [List.filter_append, List.filter, analyzingText, errorText]

/-- Witness for C1 at a one-file store and a short backend response. -/
theorem c1_witness :
    (handleSendMessage [⟨"1", "index.html", Lang.html, "x"⟩] [] "hi" (BackendOutcome.ok ["tiny"])).1
        = [⟨"1", "index.html", Lang.html, "x"⟩]
    ∧ (handleSendMessage [⟨"1", "index.html", Lang.html, "x"⟩] [] "hi" (BackendOutcome.ok ["tiny"])).2
        = [] ++ [⟨ChatRole.user, "hi"⟩, ⟨ChatRole.model, analyzingText⟩, ⟨ChatRole.model, errorText⟩]
    ∧ ((handleSendMessage [⟨"1", "index.html", Lang.html, "x"⟩] [] "hi" (BackendOutcome.ok ["tiny"])).2.filter
          (fun m => m.role == ChatRole.model && m.text == errorText)).length
        = (List.filter (fun m => m.role == ChatRole.model && m.text == errorText)
            ([] : List ChatMessage)).length + 1 :=
  c1_theorem [⟨"1", "index.html", Lang.html, "x"⟩] [] "hi" (BackendOutcome.ok ["tiny"])
    (by decide) (by decide)

/-- Claim C3: for every store, history, nonempty request and backend outcome
whose processed response exceeds the length threshold, the resulting store is
the old store with every file named index.html given the processed response
as content (the extracted root content) and every other file kept exactly;
in particular non-root files survive unchanged and no file is added or
removed. -/
theorem c3_theorem (files : List VirtualFile) (hist : List ChatMessage)
    (msg : String) (outcome : BackendOutcome)
    (hmsg : trimS msg ≠ "")
    (hlong : 50 < (processResponse (String.join (streamCodeEdit (bundlePreview files) outcome))).length) :
    (handleSendMessage files hist msg outcome).1
      = files.map (fun f =>
          if f.name == "index.html" then
            { f with content := processResponse (String.join (streamCodeEdit (bundlePreview files) outcome)) }
          else f)
    ∧ (∀ f ∈ files, ¬ f.name = "index.html" → f ∈ (handleSendMessage files hist msg outcome).1)
    ∧ (∀ f ∈ (handleSendMessage files hist msg outcome).1, f.name = "index.html" →
        f.content = processResponse (String.join (streamCodeEdit (bundlePreview files) outcome)))
    ∧ (handleSendMessage files hist msg outcome).1.length = files.length := by
  have hg : (trimS msg == "") = false := by simp [hmsg]
  have hne : processResponse (String.join (streamCodeEdit (bundlePreview files) outcome)) ≠ "" := by
    intro h
    rw [h] at hlong
    exact absurd hlong (by decide)
  have hcond : processResponse (String.join (streamCodeEdit (bundlePreview files) outcome)) ≠ ""
      ∧ 50 < (processResponse (String.join (streamCodeEdit (bundlePreview files) outcome))).length :=
    ⟨hne, hlong⟩
  have hmain : (handleSendMessage files hist msg outcome).1
      = files.map (fun f =>
          if f.name == "index.html" then
            { f with content := processResponse (String.join (streamCodeEdit (bundlePreview files) outcome)) }
          else f) := by
    simp only [handleSendMessage, hg, Bool.false_eq_true, if_false, if_pos hcond, find?_parse]
  refine ⟨hmain, ?_, ?_, ?_⟩
  · intro f hf hn
    rw [hmain]
    refine List.mem_map.mpr ⟨f, hf, ?_⟩
    have hb : (f.name == "index.html") = false := by simp [hn]
    simp [hb]
  · intro f hf hn
    rw [hmain] at hf
    obtain ⟨g, hgmem, hgeq⟩ := List.mem_map.mp hf
    by_cases hgn : (g.name == "index.html") = true
    · rw [if_pos hgn] at hgeq
      rw [← hgeq]
    · rw [if_neg (by simp [hgn])] at hgeq
      rw [← hgeq] at hn
      exact absurd (by simp [hn]) hgn
  · rw [hmain]
    simp

/-- Witness for C3 at a two-file store and a long generated document. -/
theorem c3_witness :
    (handleSendMessage
        [⟨"1", "index.html", Lang.html, "x"⟩, ⟨"2", "styles.css", Lang.css, "y"⟩]
        [] "m"
        (BackendOutcome.ok ["<!DOCTYPE html><html><head></head><body>hello world page</body></html>"])).1
      = List.map (fun f =>
          if f.name == "index.html" then
            { f with content := processResponse (String.join (streamCodeEdit
                (bundlePreview [⟨"1", "index.html", Lang.html, "x"⟩, ⟨"2", "styles.css", Lang.css, "y"⟩])
                (BackendOutcome.ok ["<!DOCTYPE html><html><head></head><body>hello world page</body></html>"]))) }
          else f)
          [⟨"1", "index.html", Lang.html, "x"⟩, ⟨"2", "styles.css", Lang.css, "y"⟩]
    ∧ (∀ f ∈ [(⟨"1", "index.html", Lang.html, "x"⟩ : VirtualFile), ⟨"2", "styles.css", Lang.css, "y"⟩],
        ¬ f.name = "index.html" →
        f ∈ (handleSendMessage
            [⟨"1", "index.html", Lang.html, "x"⟩, ⟨"2", "styles.css", Lang.css, "y"⟩]
            [] "m"
            (BackendOutcome.ok ["<!DOCTYPE html><html><head></head><body>hello world page</body></html>"])).1)
    ∧ (∀ f ∈ (handleSendMessage
            [⟨"1", "index.html", Lang.html, "x"⟩, ⟨"2", "styles.css", Lang.css, "y"⟩]
            [] "m"
            (BackendOutcome.ok ["<!DOCTYPE html><html><head></head><body>hello world page</body></html>"])).1,
        f.name = "index.html" →
        f.content = processResponse (String.join (streamCodeEdit
            (bundlePreview [⟨"1", "index.html", Lang.html, "x"⟩, ⟨"2", "styles.css", Lang.css, "y"⟩])
            (BackendOutcome.ok ["<!DOCTYPE html><html><head></head><body>hello world page</body></html>"]))))
    ∧ (handleSendMessage
          [⟨"1", "index.html", Lang.html, "x"⟩, ⟨"2", "styles.css", Lang.css, "y"⟩]
          [] "m"
          (BackendOutcome.ok ["<!DOCTYPE html><html><head></head><body>hello world page</body></html>"])).1.length
        = [(⟨"1", "index.html", Lang.html, "x"⟩ : VirtualFile), ⟨"2", "styles.css", Lang.css, "y"⟩].length :=
  c3_theorem
    [⟨"1", "index.html", Lang.html, "x"⟩, ⟨"2", "styles.css", Lang.css, "y"⟩]
    [] "m"
    (BackendOutcome.ok ["<!DOCTYPE html><html><head></head><body>hello world page</body></html>"])
    (by decide) (by decide)

/-- Claim C10: in a store with more than one file, pairwise distinct ids and a
valid active pointer, a confirmed deletion of a present file leaves the
refusal alert off and the active pointer valid: when the deleted file was
active, the pointer moves to the first remaining file; otherwise it is
unchanged. -/
theorem c10_theorem (files : List VirtualFile) (activeId delId : String)
    (h1 : 1 < files.length)
    (h2 : (files.map VirtualFile.id).Nodup)
    (_h3 : delId ∈ files.map VirtualFile.id)
    (h4 : activeId ∈ files.map VirtualFile.id) :
    (handleDeleteFile ⟨files, activeId⟩ delId true).2 = false
    ∧ (handleDeleteFile ⟨files, activeId⟩ delId true).1.activeFileId
        ∈ (handleDeleteFile ⟨files, activeId⟩ delId true).1.files.map VirtualFile.id
    ∧ (activeId ≠ delId →
        (handleDeleteFile ⟨files, activeId⟩ delId true).1.activeFileId = activeId)
    ∧ (activeId = delId →
        ((handleDeleteFile ⟨files, activeId⟩ delId true).1.files.head?).map VirtualFile.id
          = some ((handleDeleteFile ⟨files, activeId⟩ delId true).1.activeFileId)) := by
  have hng : ¬ (files.length ≤ 1) := by omega
  obtain ⟨f0, hf0mem, hf0ne⟩ := exists_keep files delId h1 h2
  have hfilter_ne : files.filter (fun f => f.id != delId) ≠ [] :=
    List.ne_nil_of_mem (List.mem_filter.mpr ⟨hf0mem, hf0ne⟩)
  have hfind : files.find? (fun f => f.id != delId)
      = (files.filter (fun f => f.id != delId)).head? := find?_eq_head?_filter _ files
  obtain ⟨g0, t0, hg0⟩ := List.exists_cons_of_ne_nil hfilter_ne
  have hres : handleDeleteFile ⟨files, activeId⟩ delId true
      = ({ files := files.filter (fun f => f.id != delId),
           activeFileId :=
             if activeId == delId then
               ((files.find? (fun f => f.id != delId)).map VirtualFile.id).getD ""
             else activeId }, false) := by
    simp only [handleDeleteFile]
    rw [if_neg hng]
    rfl
  rw [hres]
  refine ⟨rfl, ?_, ?_, ?_⟩
  · by_cases had : activeId = delId
    · have hb : (activeId == delId) = true := by simp [had]
      simp only [hb, if_true]
      rw [hfind, hg0]
      simp
    · have hb : (activeId == delId) = false := by simp [had]
      simp only [hb, Bool.false_eq_true, if_false]
      obtain ⟨fa, hfa, hfaid⟩ := List.mem_map.mp h4
      refine List.mem_map.mpr ⟨fa, List.mem_filter.mpr ⟨hfa, ?_⟩, hfaid⟩
      simp only [bne_iff_ne, ne_eq]
      intro hcontra
      exact had (by rw [← hfaid, hcontra])
  · intro hne
    have hb : (activeId == delId) = false := by simp [hne]
    simp [hb]
  · intro heq
    have hb : (activeId == delId) = true := by simp [heq]
    simp only [hb, if_true]
    rw [hfind, hg0]
    simp

/-- Witness for C10 at a two-file store deleting the active root file. -/
theorem c10_witness :
    (handleDeleteFile ⟨[⟨"1", "index.html", Lang.html, "a"⟩,
        ⟨"2", "styles.css", Lang.css, "b"⟩], "1"⟩ "1" true).2 = false
    ∧ (handleDeleteFile ⟨[⟨"1", "index.html", Lang.html, "a"⟩,
        ⟨"2", "styles.css", Lang.css, "b"⟩], "1"⟩ "1" true).1.activeFileId
        ∈ (handleDeleteFile ⟨[⟨"1", "index.html", Lang.html, "a"⟩,
            ⟨"2", "styles.css", Lang.css, "b"⟩], "1"⟩ "1" true).1.files.map VirtualFile.id
    ∧ ((("1" : String) ≠ "1") →
        (handleDeleteFile ⟨[⟨"1", "index.html", Lang.html, "a"⟩,
            ⟨"2", "styles.css", Lang.css, "b"⟩], "1"⟩ "1" true).1.activeFileId = "1")
    ∧ ((("1" : String) = "1") →
        ((handleDeleteFile ⟨[⟨"1", "index.html", Lang.html, "a"⟩,
            ⟨"2", "styles.css", Lang.css, "b"⟩], "1"⟩ "1" true).1.files.head?).map VirtualFile.id
          = some ((handleDeleteFile ⟨[⟨"1", "index.html", Lang.html, "a"⟩,
              ⟨"2", "styles.css", Lang.css, "b"⟩], "1"⟩ "1" true).1.activeFileId)) :=
  c10_theorem
    [⟨"1", "index.html", Lang.html, "a"⟩, ⟨"2", "styles.css", Lang.css, "b"⟩]
    "1" "1" (by decide) (by decide) (by decide) (by decide)

/-- Counterexample for C4: creating a file named index.html in a store that
already has one yields a store with two files named index.html, violating the
exactly-one-root invariant after a store operation. -/
theorem c4_counterexample :
    ((handleCreateFile ⟨[⟨"1", "index.html", Lang.html, "x"⟩], "1"⟩ "index.html" "99").files.filter
        (fun f => f.name == "index.html")).length ≠ 1
    ∧ ((handleCreateFile ⟨[⟨"1", "index.html", Lang.html, "x"⟩], "1"⟩ "index.html" "99").files.filter
        (fun f => f.name == "index.html")).length = 2 := by
  decide

/-- Claim C4 (amended): initial extraction establishes a nonempty store with
exactly one file named index.html; content update and the edit-cycle merge
preserve both the count of files named index.html and the store size; file
creation preserves nonemptiness, and deletion preserves nonemptiness when the
store's file ids are pairwise distinct. (The exactly-one-root part of the
original claim is not maintained by create, which accepts a duplicate
index.html name, nor guarded by delete, which can remove the root file.) -/
theorem c4_theorem :
    (∀ D : String,
        ((parseProjectCode D).filter (fun f => f.name == "index.html")).length = 1
        ∧ parseProjectCode D ≠ [])
    ∧ (∀ (st : EditorState) (c : String),
        ((handleFileChange st c).files.filter (fun f => f.name == "index.html")).length
            = (st.files.filter (fun f => f.name == "index.html")).length
        ∧ (handleFileChange st c).files.length = st.files.length)
    ∧ (∀ (files : List VirtualFile) (hist : List ChatMessage) (msg : String) (o : BackendOutcome),
        ((handleSendMessage files hist msg o).1.filter (fun f => f.name == "index.html")).length
            = (files.filter (fun f => f.name == "index.html")).length
        ∧ (handleSendMessage files hist msg o).1.length = files.length)
    ∧ (∀ (st : EditorState) (name newId : String),
        st.files ≠ [] → (handleCreateFile st name newId).files ≠ [])
    ∧ (∀ (st : EditorState) (id : String) (confirmed : Bool),
        st.files ≠ [] → (st.files.map VirtualFile.id).Nodup →
        (handleDeleteFile st id confirmed).1.files ≠ []) := by
  refine ⟨?_, ?_, ?_, ?_, ?_⟩
  · intro D
    constructor
    · cases hs : styleInner D <;> cases hj : scriptInner D <;>
        simp +decide [parseProjectCode, hs, hj, List.filter_append, List.filter,
          apply_ite (List.filter (fun f : VirtualFile => f.name == "index.html"))]
    · simp [parseProjectCode]
  · intro st c
    constructor
    · simp only [handleFileChange]
      exact filter_name_map _
        (fun f => by by_cases h : (f.id == st.activeFileId) = true <;> simp [h]) _ st.files
    · simp [handleFileChange]
  · intro files hist msg o
    cases hB : (trimS msg == "") with
    | true => simp [handleSendMessage, hB]
    | false =>
      by_cases hcond : (processResponse (String.join (streamCodeEdit (bundlePreview files) o)) ≠ ""
          ∧ 50 < (processResponse (String.join (streamCodeEdit (bundlePreview files) o))).length)
      · have hmain : (handleSendMessage files hist msg o).1
            = files.map (fun f =>
                if f.name == "index.html" then
                  { f with content := processResponse (String.join (streamCodeEdit (bundlePreview files) o)) }
                else f) := by
          simp only [handleSendMessage, hB, Bool.false_eq_true, if_false, if_pos hcond, find?_parse]
        constructor
        · rw [hmain]
          exact filter_name_map _
            (fun f => by by_cases h : (f.name == "index.html") = true <;> simp [h]) _ files
        · rw [hmain]
          simp
      · have hmain : (handleSendMessage files hist msg o).1 = files := by
          simp only [handleSendMessage, hB, Bool.false_eq_true, if_false, if_neg hcond]
        rw [hmain]
        exact ⟨rfl, rfl⟩
  · intro st name newId h
    cases hn : (name == "") with
    | true => simpa [handleCreateFile, hn] using h
    | false => simp [handleCreateFile, hn]
  · intro st id confirmed h hnd
    by_cases hlen : st.files.length ≤ 1
    · simp [handleDeleteFile, hlen, h]
    · cases confirmed with
      | false => simp [handleDeleteFile, hlen, h]
      | true =>
        have h1 : 1 < st.files.length := by omega
        obtain ⟨f0, hf0mem, hf0ne⟩ := exists_keep st.files id h1 hnd
        have hne : st.files.filter (fun f => f.id != id) ≠ [] :=
          List.ne_nil_of_mem (List.mem_filter.mpr ⟨hf0mem, hf0ne⟩)
        simpa [handleDeleteFile, hlen] using hne

/-- Witness for C4: extraction of a block-free document has exactly one root
file, and a confirmed delete of a non-root file in a two-file store with
distinct ids leaves the store nonempty. -/
theorem c4_witness :
    ((parseProjectCode "x").filter (fun f => f.name == "index.html")).length = 1
    ∧ (handleDeleteFile ⟨[⟨"1", "index.html", Lang.html, "a"⟩,
        ⟨"2", "styles.css", Lang.css, "b"⟩], "1"⟩ "2" true).1.files ≠ [] :=
  ⟨(c4_theorem.1 "x").1,
   c4_theorem.2.2.2.2
     ⟨[⟨"1", "index.html", Lang.html, "a"⟩, ⟨"2", "styles.css", Lang.css, "b"⟩], "1"⟩
     "2" true (by decide) (by decide)⟩

/-! ### Substring characterization helpers for the bundler -/

/-- splitFirstS returns a decomposition of the subject string. -/
theorem splitFirstS_sound (s pat pre post : String)
    (h : splitFirstS s pat = some (pre, post)) :
    s = pre ++ pat ++ post := by
  unfold splitFirstS at h
  cases hsp : splitFirstBy charEq pat.data s.data with
  | none => rw [hsp] at h; exact Option.noConfusion h
  | some p =>
    obtain ⟨b, a⟩ := p
    rw [hsp] at h
    simp only [Option.map_some', Option.some.injEq, Prod.mk.injEq] at h
    obtain ⟨hpre, hpost⟩ := h
    have hb : pre.data = b := by rw [← hpre]
    have ha : post.data = a := by rw [← hpost]
    have hd := splitFirstBy_charEq_sound pat.data s.data b a hsp
    apply String.ext
    rw [strData_append, strData_append, hb, ha]
    exact hd

/-- splitFirstS splits at the leftmost occurrence of the pattern. -/
theorem splitFirstS_min (s pat pre post : String)
    (h : splitFirstS s pat = some (pre, post)) :
    ∀ b2 a2 : String, s = b2 ++ pat ++ a2 → pre.length ≤ b2.length := by
  intro b2 a2 hdec
  unfold splitFirstS at h
  cases hsp : splitFirstBy charEq pat.data s.data with
  | none => rw [hsp] at h; exact Option.noConfusion h
  | some p =>
    obtain ⟨b, a⟩ := p
    rw [hsp] at h
    simp only [Option.map_some', Option.some.injEq, Prod.mk.injEq] at h
    obtain ⟨hpre, hpost⟩ := h
    have hb : pre.data = b := by rw [← hpre]
    have hdata : s.data = b2.data ++ pat.data ++ a2.data := by
      rw [hdec, strData_append, strData_append]
    have hlen := splitFirstBy_charEq_min pat.data s.data b a hsp b2.data a2.data hdata
    show pre.data.length ≤ b2.data.length
    rw [hb]
    exact hlen

/-- A successful split witnesses that includes is true. -/
theorem containsStr_of_split (s pat : String) (p : String × String)
    (h : splitFirstS s pat = some p) : containsStr s pat = true := by
  unfold splitFirstS at h
  unfold containsStr containsL
  cases hsp : splitFirstBy charEq pat.data s.data with
  | none => rw [hsp] at h; exact Option.noConfusion h
  | some q => simp [hsp]

/-- JS replace at a known first occurrence, with a dollar-free replacement,
splices the replacement verbatim between the two parts. -/
theorem replaceFirstJS_of_split (s pat repl pre post : String)
    (h : splitFirstS s pat = some (pre, post))
    (hnd : ∀ c ∈ repl.data, c ≠ '$') :
    replaceFirstJS s pat repl = pre ++ repl ++ post := by
  unfold splitFirstS at h
  cases hsp : splitFirstBy charEq pat.data s.data with
  | none => rw [hsp] at h; exact Option.noConfusion h
  | some p =>
    obtain ⟨b, a⟩ := p
    rw [hsp] at h
    simp only [Option.map_some', Option.some.injEq, Prod.mk.injEq] at h
    obtain ⟨hpre, hpost⟩ := h
    have hb : pre.data = b := by rw [← hpre]
    have ha : post.data = a := by rw [← hpost]
    unfold replaceFirstJS
    rw [hsp]
    show ({ data := b ++ getSubstitution pat.data b a repl.data ++ a } : String)
      = pre ++ repl ++ post
    rw [getSubstitution_id pat.data b a repl.data hnd]
    apply String.ext
    show b ++ repl.data ++ a = ((pre ++ repl) ++ post).data
    rw [strData_append, strData_append, hb, ha]

/-- Counterexample for C6: a style payload containing the JS replacement
escape dollar-ampersand is not injected verbatim: String.prototype.replace
expands it to the matched closing head tag, so the injected block differs
from the joined payload. -/
theorem c6_counterexample :
    bundlePreview [⟨"1", "index.html", Lang.html, "<head></head>"⟩,
        ⟨"2", "styles.css", Lang.css, "$&"⟩]
      ≠ "<head><style>$&</style></head>"
    ∧ bundlePreview [⟨"1", "index.html", Lang.html, "<head></head>"⟩,
        ⟨"2", "styles.css", Lang.css, "$&"⟩]
      = "<head><style></head></style></head>" := by
  decide

/-- Claim C6 (amended): the bundler is definitionally the style-injection
stage followed by the script-injection stage (css first, then js on the
result, as in the source); each stage, for every input document, injects its
trim-nonempty dollar-free payload as a single block immediately before the
first closing head (resp. body) tag when one is present and otherwise appends
it to the end of the document; and the split used is exactly the leftmost
occurrence of the tag. This covers stores with any combination of css and js
payloads. (bundlePreview is a total function, so the bundler never throws.
Payloads containing JS replacement dollar escapes are expanded by
String.prototype.replace rather than injected verbatim, per the
counterexample.) -/
theorem c6_theorem :
    (∀ files : List VirtualFile,
        bundlePreview files
          = injectScript (injectStyle (rootContent files) (cssJoined files)) (jsJoined files))
    ∧ (∀ doc payload pre post : String,
        trimS payload ≠ "" → noDollar payload = true →
        splitFirstS doc "</head>" = some (pre, post) →
        injectStyle doc payload = pre ++ "<style>" ++ payload ++ "</style></head>" ++ post)
    ∧ (∀ doc payload : String,
        trimS payload ≠ "" → containsStr doc "</head>" = false →
        injectStyle doc payload = doc ++ "<style>" ++ payload ++ "</style>")
    ∧ (∀ doc payload pre post : String,
        trimS payload ≠ "" → noDollar payload = true →
        splitFirstS doc "</body>" = some (pre, post) →
        injectScript doc payload = pre ++ "<script>" ++ payload ++ "</script></body>" ++ post)
    ∧ (∀ doc payload : String,
        trimS payload ≠ "" → containsStr doc "</body>" = false →
        injectScript doc payload = doc ++ "<script>" ++ payload ++ "</script>")
    ∧ (∀ s pat pre post : String,
        splitFirstS s pat = some (pre, post) →
        s = pre ++ pat ++ post
        ∧ ∀ b2 a2 : String, s = b2 ++ pat ++ a2 → pre.length ≤ b2.length) := by
  refine ⟨fun files => rfl, ?_, ?_, ?_, ?_, ?_⟩
  · intro doc payload pre post h1 hnd0 hsplit
    have hct := containsStr_of_split doc "</head>" (pre, post) hsplit
    have hndl : ∀ c ∈ payload.data, (c != '$') = true := List.all_eq_true.mp hnd0
    have hnd : ∀ c ∈ ("<style>" ++ payload ++ "</style></head>").data, c ≠ '$' := by
      intro c hc
      rw [strData_append, strData_append] at hc
      rcases List.mem_append.mp hc with hc1 | hc2
      · rcases List.mem_append.mp hc1 with hc3 | hc4
        · exact (by decide : ∀ c ∈ "<style>".data, c ≠ '$') c hc3
        · simpa using hndl c hc4
      · exact (by decide : ∀ c ∈ "</style></head>".data, c ≠ '$') c hc2
    unfold injectStyle
    rw [if_pos h1, if_pos hct,
      replaceFirstJS_of_split doc "</head>" _ pre post hsplit hnd]
    apply String.ext
    simp [strData_append, List.append_assoc]
  · intro doc payload h1 hcf
    unfold injectStyle
    rw [if_pos h1, if_neg (by simp [hcf])]
  · intro doc payload pre post h1 hnd0 hsplit
    have hct := containsStr_of_split doc "</body>" (pre, post) hsplit
    have hndl : ∀ c ∈ payload.data, (c != '$') = true := List.all_eq_true.mp hnd0
    have hnd : ∀ c ∈ ("<script>" ++ payload ++ "</script></body>").data, c ≠ '$' := by
      intro c hc
      rw [strData_append, strData_append] at hc
      rcases List.mem_append.mp hc with hc1 | hc2
      · rcases List.mem_append.mp hc1 with hc3 | hc4
        · exact (by decide : ∀ c ∈ "<script>".data, c ≠ '$') c hc3
        · simpa using hndl c hc4
      · exact (by decide : ∀ c ∈ "</script></body>".data, c ≠ '$') c hc2
    unfold injectScript
    rw [if_pos h1, if_pos hct,
      replaceFirstJS_of_split doc "</body>" _ pre post hsplit hnd]
    apply String.ext
    simp [strData_append, List.append_assoc]
  · intro doc payload h1 hcf
    unfold injectScript
    rw [if_pos h1, if_neg (by simp [hcf])]
  · intro s pat pre post hsplit
    exact ⟨splitFirstS_sound _ _ _ _ hsplit, splitFirstS_min _ _ _ _ hsplit⟩

/-- Witness for C6: the composition equation at a store holding a root, a css
file and a js file together, plus both injection stages placed at a concrete
closing tag with dollar-free payloads. -/
theorem c6_witness :
    bundlePreview [⟨"1", "index.html", Lang.html, "<head></head><body></body>"⟩,
        ⟨"2", "styles.css", Lang.css, "b"⟩, ⟨"3", "script.js", Lang.javascript, "c"⟩]
      = injectScript
          (injectStyle
            (rootContent [⟨"1", "index.html", Lang.html, "<head></head><body></body>"⟩,
              ⟨"2", "styles.css", Lang.css, "b"⟩, ⟨"3", "script.js", Lang.javascript, "c"⟩])
            (cssJoined [⟨"1", "index.html", Lang.html, "<head></head><body></body>"⟩,
              ⟨"2", "styles.css", Lang.css, "b"⟩, ⟨"3", "script.js", Lang.javascript, "c"⟩]))
          (jsJoined [⟨"1", "index.html", Lang.html, "<head></head><body></body>"⟩,
            ⟨"2", "styles.css", Lang.css, "b"⟩, ⟨"3", "script.js", Lang.javascript, "c"⟩])
    ∧ injectStyle "<head></head>" "b" = "<head>" ++ "<style>" ++ "b" ++ "</style></head>" ++ ""
    ∧ injectScript "<body></body>" "c" = "<body>" ++ "<script>" ++ "c" ++ "</script></body>" ++ "" :=
  ⟨c6_theorem.1 [⟨"1", "index.html", Lang.html, "<head></head><body></body>"⟩,
      ⟨"2", "styles.css", Lang.css, "b"⟩, ⟨"3", "script.js", Lang.javascript, "c"⟩],
   c6_theorem.2.1 "<head></head>" "b" "<head>" "" (by decide) (by decide) (by decide),
   c6_theorem.2.2.2.1 "<body></body>" "c" "<body>" "" (by decide) (by decide) (by decide)⟩
